import Mathlib

/-!
Verification development for the smart-kitchen appliance ingestion backend
(`src/worker.ts`, `src/ai.ts`, `src/db.ts`, `src/utils.ts`).

JavaScript strings are modelled as `List Char` (one element per UTF-16 code
unit; all concrete inputs below are ASCII, where the two notions coincide).
Asynchronous external calls (database, object storage, AI models, vector
index) are modelled by oracle records whose fields give each call's outcome:
`Except Unit α` models a promise that either resolves with a value or
rejects.  `JSON.parse` is modelled by an oracle function
`String → Option JVal` (`none` models a thrown `SyntaxError`).
-/

namespace ColbyRecipe

/-- JavaScript string model: a list of UTF-16 code units. -/
abbrev JStr := List Char

/-- JS `s.trimStart()` / the leading half of `s.trim()`: drop leading whitespace.
Lean's `Char.isWhitespace` covers the characters relevant here
(space, tab, CR, LF). -/
def trimL (s : JStr) : JStr := s.dropWhile Char.isWhitespace

/-- JS `s.trimEnd()` / the trailing half of `s.trim()`: drop trailing whitespace. -/
def trimR (s : JStr) : JStr := (trimL s.reverse).reverse

/-- JS `s.trim()`: drop whitespace from both ends. -/
def jsTrim (s : JStr) : JStr := trimL (trimR s)

/-- JS `s.slice(-n)` for `n ≥ 1`: the last `min n s.length` code units. -/
def jsSliceNeg (n : Nat) (s : JStr) : JStr := s.drop (s.length - n)

/-- JS `text.replace(/\r\n/g, '\n')` (worker.ts:635). -/
def replaceCRLF : JStr → JStr
  | [] => []
  | [c] => [c]
  | c :: d :: rest =>
    if c = '\r' ∧ d = '\n' then '\n' :: replaceCRLF rest
    else c :: replaceCRLF (d :: rest)

/-- Scanner state for the blank-line split: pieces already closed, the current
piece (accumulated in reverse), and the length of the pending newline run. -/
structure SplitSt where
  pieces : List JStr
  cur : JStr
  pending : Nat

/-- One character of the `/\n{2,}/` scan: a run of two or more newlines is a
separator; a single newline stays inside the current piece. -/
def splitStepChar (st : SplitSt) (c : Char) : SplitSt :=
  if c = '\n' then { st with pending := st.pending + 1 }
  else if st.pending ≥ 2 then
    { pieces := st.pieces ++ [st.cur.reverse], cur := [c], pending := 0 }
  else
    { pieces := st.pieces, cur := c :: (List.replicate st.pending '\n' ++ st.cur),
      pending := 0 }

/-- JS `normalized.split(/\n{2,}/)` (worker.ts:637): split on maximal runs of two
or more newlines, keeping (possibly empty) pieces between the separators. -/
def splitParas (s : JStr) : List JStr :=
  let st := s.foldl splitStepChar ⟨[], [], 0⟩
  if st.pending ≥ 2 then st.pieces ++ [st.cur.reverse, []]
  else st.pieces ++ [(List.replicate st.pending '\n' ++ st.cur).reverse]

/-- The paragraph list the chunker works on (worker.ts:635-639): normalize
CRLF, split on blank lines, trim each piece and drop empty pieces. -/
def manualParagraphs (text : JStr) : List JStr :=
  ((splitParas (replaceCRLF text)).map jsTrim).filter (· ≠ [])

/-- The separator `'\n\n'` re-inserted between accumulated paragraphs. -/
def nl2 : JStr := ['\n', '\n']

/-- One iteration of the paragraph-accumulation loop (worker.ts:644-652),
on state (chunks emitted so far, current buffer). -/
def chunkStep (chunkSize overlap : Nat) (st : List JStr × JStr) (p : JStr) :
    List JStr × JStr :=
  let chunks := st.1
  let current := st.2
  if (jsTrim (current ++ nl2 ++ p)).length > chunkSize ∧ current ≠ [] then
    (chunks ++ [jsTrim current], jsSliceNeg overlap current ++ nl2 ++ p)
  else
    (chunks, if current ≠ [] then current ++ nl2 ++ p else p)

/-- Function `chunkManualText` (worker.ts:634-659). -/
def chunkManualText (text : JStr) (chunkSize : Nat) (overlap : Nat) : List JStr :=
  let paragraphs := manualParagraphs text
  let st := paragraphs.foldl (chunkStep chunkSize overlap) ([], [])
  let chunks := if jsTrim st.2 ≠ [] then st.1 ++ [jsTrim st.2] else st.1
  if chunks ≠ [] then chunks else [text]

/-- The chunk list the ingestion pipeline embeds:
`chunkManualText(manualText, 1200, 200).slice(0, 40)` (worker.ts:714). -/
def ingestionChunks (text : JStr) : List JStr :=
  (chunkManualText text 1200 200).take 40

/-- Decision logic of `extractTextFromPdf` (ai.ts:273-288) as a function of the
two extraction results: `localText` is the `tryExtractWithPdfJs` result
(`none` models `null`), `aiText` the `extractTextFromPdfViaAi` result.
JS truthiness of a string is non-emptiness; the JS float comparison
`aiText.length < localText.length / 4` is exact, hence `4 * a < l`. -/
def resolvePdfText (localText : Option JStr) (aiText : JStr) : JStr :=
  if localText.getD [] ≠ [] ∧ (localText.getD []).length > 200 then localText.getD []
  else if aiText ≠ [] ∧ aiText.length > 0 then
    if localText.getD [] ≠ [] ∧ 4 * aiText.length < (localText.getD []).length then
      localText.getD []
    else aiText
  else localText.getD []

/-- Function `truncate` (utils.ts): cap a string at `max` code units, appending
an ellipsis when it was cut. -/
def truncate (input : JStr) (max : Nat) : JStr :=
  if input.length ≤ max then input else input.take max ++ [Char.ofNat 0x2026]

/-- Model of a parsed JSON value (the result of a successful `JSON.parse`). -/
inductive JVal where
  | jnull : JVal
  | jbool : Bool → JVal
  | jnum : Int → JVal
  | jstr : String → JVal
  | jarr : List JVal → JVal
  | jobj : List (String × JVal) → JVal

mutual

/-- Model of JS `String(value)` on JSON values, used by the lenient parsers
(`parsed.key_features.map(String)` and the like). -/
def jsToString : JVal → String
  | .jnull => "null"
  | .jbool b => if b then "true" else "false"
  | .jnum n => toString n
  | .jstr s => s
  | .jarr xs => String.intercalate "," (jsToStringList xs)
  | .jobj _ => "[object Object]"

/-- Map `jsToString` over a list of JSON values. -/
def jsToStringList : List JVal → List String
  | [] => []
  | x :: xs => jsToString x :: jsToStringList xs

end

/-- Model of JS property access `parsed?.[k]`: a field of an object, undefined
(`none`) on anything else. -/
def getField : JVal → String → Option JVal
  | .jobj fields, k => (fields.find? (fun kv => kv.1 = k)).map (·.2)
  | _, _ => none

/-- Read a field as a string exactly when it holds a JSON string
(`typeof parsed.k === 'string' ? parsed.k : null`). -/
def strField (parsed : JVal) (k : String) : Option String :=
  match getField parsed k with
  | some (.jstr s) => some s
  | _ => none

/-- The three backticks opening or closing a Markdown code fence. -/
def fenceChars : JStr := "```".toList

/-- JS `raw.replace(/^```(?:json)?/i, '')`: strip one leading code fence,
greedily consuming a case-insensitive `json` tag. -/
def stripFenceOpen (s : JStr) : JStr :=
  if (s.take 7).map Char.toLower = "```json".toList then s.drop 7
  else if s.take 3 = fenceChars then s.drop 3
  else s

/-- JS `.replace(/```$/i, '')`: strip one trailing code fence. -/
def stripFenceClose (s : JStr) : JStr :=
  if s.drop (s.length - 3) = fenceChars then s.take (s.length - 3) else s

/-- The code-fence stripping applied to generation-model output before
`JSON.parse` (ai.ts:316-318, 443-445, 492-494): only when the trimmed raw
text starts with a fence. -/
def stripCodeFence (raw : JStr) : JStr :=
  if (jsTrim raw).take 3 = fenceChars then jsTrim (stripFenceClose (stripFenceOpen raw))
  else raw

/-- The structured appliance spec built by `extractApplianceSpecs`
(ai.ts:320-341); `extra` holds the extra parsed entries copied by the
`Object.entries` loop (every key outside the five fixed spec keys —
note `key_features` itself is not a key of the specs object, so it is
copied too). -/
structure ApplianceSpecs where
  brand : Option String
  model : Option String
  capacity : Option String
  wattage : Option String
  keyFeatures : List String
  extra : List (String × JVal)

/-- The `key_features` / `keyFeatures` lenient array read (ai.ts:321-325). -/
def specKeyFeatures (parsed : JVal) : List String :=
  match getField parsed "key_features" with
  | some (.jarr xs) => jsToStringList xs
  | _ =>
    match getField parsed "keyFeatures" with
    | some (.jarr xs) => jsToStringList xs
    | _ => []

/-- The extra-entry copy loop of `extractApplianceSpecs` (ai.ts:333-337).
JS `Object.entries` of a non-object primitive is modelled as empty. -/
def specExtraFields (parsed : JVal) : List (String × JVal) :=
  match parsed with
  | .jobj fields =>
      fields.filter (fun kv =>
        kv.1 ∉ (["brand", "model", "capacity", "wattage", "keyFeatures"] : List String))
  | _ => []

/-- The spec record built from a successfully parsed JSON value
(ai.ts:320-338). -/
def specsFromJson (parsed : JVal) : ApplianceSpecs :=
  { brand := strField parsed "brand"
    model := strField parsed "model"
    capacity := strField parsed "capacity"
    wattage := strField parsed "wattage"
    keyFeatures := specKeyFeatures parsed
    extra := specExtraFields parsed }

/-- Oracle for `extractApplianceSpecs`: the generation-model call
(`.error` models a rejected `env.AI.run` promise, `.ok none` a response
whose shape matched none of the recognized fields, `.ok (some raw)` the raw
text) and the `JSON.parse` outcome on each string. -/
structure SpecOracle where
  aiRun : Except Unit (Option JStr)
  parseJson : JStr → Option JVal

/-- Function `extractApplianceSpecs` (ai.ts:290-347).  Only the `JSON.parse`
call sits inside the `try`; a rejected model call propagates to the caller.
An unrecognized response shape defaults the raw text to `"\x7b\x7d"`, which
parses to an empty object rather than yielding a null spec. -/
def extractApplianceSpecs (o : SpecOracle) (text : JStr) : Except Unit (Option ApplianceSpecs) :=
  if jsTrim text = [] then .ok none
  else
    match o.aiRun with
    | .error e => .error e
    | .ok shaped =>
      let raw := shaped.getD "\x7b\x7d".toList
      match o.parseJson (stripCodeFence raw) with
      | some parsed => .ok (some (specsFromJson parsed))
      | none => .ok none

/-- Function `generateApplianceInstructions` (ai.ts:349-411): no `try` at all;
a rejected model call propagates, an unrecognized response shape falls back
to the empty string; the message is trimmed. -/
def generateApplianceInstructions (aiRun : Except Unit (Option JStr)) : Except Unit JStr :=
  match aiRun with
  | .error e => .error e
  | .ok shaped => .ok (jsTrim (shaped.getD []))

/-- Function `embedText` (ai.ts:185-199): blank text short-circuits to the
empty vector without a model call; otherwise the oracle gives the vector
extracted from the response (the empty list models both an empty `data`
payload and an unrecognized response shape). -/
def embedText (aiRun : Except Unit (List Int)) (text : JStr) : Except Unit (List Int) :=
  if jsTrim text = [] then .ok []
  else aiRun

/-- Deterministic vector id `appliance:{id}:chunk:{i}` (worker.ts:721). -/
def chunkVectorId (id : String) (i : Nat) : String :=
  "appliance:" ++ id ++ ":chunk:" ++ toString i

/-- Legacy-shaped vector id `appliance:{id}` (worker.ts:1477). -/
def legacyVectorId (id : String) : String := "appliance:" ++ id

/-- One vector entry pushed by the embedding loop (worker.ts:720-728). -/
structure VectorEntry where
  id : String
  values : List Int
  chunkIndex : Nat
  chunkText : JStr

/-- The embedding loop of `runApplianceIngestion` (worker.ts:716-731), from
chunk index `i`: embed each chunk in order, skip chunks whose embedding is
empty, abort the whole run if an embedding call rejects. -/
def buildVectorsAux (applianceId : String) (embedAi : Nat → Except Unit (List Int)) :
    Nat → List JStr → Except Unit (List VectorEntry)
  | _, [] => .ok []
  | i, chunk :: rest =>
    match embedText (embedAi i) chunk with
    | .error e => .error e
    | .ok emb =>
      match buildVectorsAux applianceId embedAi (i + 1) rest with
      | .error e => .error e
      | .ok tail =>
        .ok (if emb = [] then tail
             else { id := chunkVectorId applianceId i, values := emb, chunkIndex := i,
                    chunkText := truncate chunk 800 } :: tail)

/-- The appliance processing states (worker.ts / db.ts). -/
inductive ProcessingStatus where
  | queued
  | processing
  | completed
  | failed
deriving DecidableEq

/-- The ingestion job payload (worker.ts:623-632).  `contentType` is dropped:
it only feeds object-storage metadata, never control flow. -/
structure IngestJob where
  userId : String
  applianceId : String
  manualKey : String
  manualUrl : Option String
  pdfBytes : Option (List Nat)
  nickname : Option String
  extractedText : Option JStr

/-- Oracle for one `runApplianceIngestion` run: the outcome of each awaited
external call, in pipeline order. -/
structure PipelineOracle where
  statusProcessing : Except Unit Unit
  fetchManual : Except Unit (List Nat)
  putManual : Except Unit Unit
  ocrText : Except Unit JStr
  putText : Except Unit Unit
  spec : SpecOracle
  getPrefs : Except Unit Unit
  instrAi : Except Unit (Option JStr)
  embedAi : Nat → Except Unit (List Int)
  upsert : Except Unit Unit
  finalUpdate : Except Unit Unit
  statusFailed : Except Unit Unit

/-- JS `s.trim()` on a packed string. -/
def trimS (s : String) : String := String.mk (jsTrim s.data)

/-- Simplified model of `new URL(u).protocol`: the lowercased scheme up to and
including the first colon; `none` models the constructor throwing on a
string with no colon.  Adequate for the scheme check at worker.ts:667-670. -/
def urlProtocol (u : String) : Option String :=
  if u.data.contains ':' then
    some (String.mk ((u.data.takeWhile (· ≠ ':')).map Char.toLower) ++ ":")
  else none

/-- Manual-byte resolution of `runApplianceIngestion` (worker.ts:665-677):
payload bytes win; otherwise a manual URL is fetched after the scheme
check; a non-http(s) scheme throws inside the job. -/
def resolveManualBytes (o : PipelineOracle) (job : IngestJob) :
    Except Unit (Option (List Nat)) :=
  match job.pdfBytes with
  | some b => .ok (some b)
  | none =>
    match job.manualUrl with
    | none => .ok none
    | some url =>
      match urlProtocol url with
      | none => .error ()
      | some proto =>
        if proto = "http:" ∨ proto = "https:" then
          match o.fetchManual with
          | .error e => .error e
          | .ok bytes => .ok (some bytes)
        else .error ()

/-- Manual-text resolution (worker.ts:686-697): caller-supplied text (when
truthy) wins and skips OCR; otherwise bytes are OCRed; with neither, the
job throws. -/
def resolveManualText (o : PipelineOracle) (job : IngestJob)
    (manualBytes : Option (List Nat)) : Except Unit JStr :=
  if job.extractedText.getD [] ≠ [] then .ok (jsTrim (job.extractedText.getD []))
  else
    match manualBytes with
    | some _ =>
      match o.ocrText with
      | .error e => .error e
      | .ok t => .ok (jsTrim t)
    | none => .error ()

/-- The manual text a run works on, when it gets that far. -/
def ingestManualText (o : PipelineOracle) (job : IngestJob) : Except Unit JStr :=
  match resolveManualBytes o job with
  | .error e => .error e
  | .ok mb => resolveManualText o job mb

/-- The chunk list a run embeds, when it gets that far. -/
def ingestChunksOf (o : PipelineOracle) (job : IngestJob) : List JStr :=
  match ingestManualText o job with
  | .ok t => ingestionChunks t
  | .error _ => []

/-- The `extractedSpecs` value persisted on completion (worker.ts:737-740):
the spread `{...(specs ?? {}), vectorChunkCount: vectors.length}`. -/
structure StoredSpecs where
  base : Option ApplianceSpecs
  vectorChunkCount : Nat

/-- The data carried by the final `COMPLETED` update (worker.ts:742-757). -/
structure SuccessData where
  specs : Option ApplianceSpecs
  storedSpecs : StoredSpecs
  agentInstructions : Option JStr
  brandUpdate : Option String
  modelUpdate : Option String

/-- The body of `runApplianceIngestion`'s `try` (worker.ts:664-757), as the
`Except` outcome plus the vector entries actually upserted before any
failure (the batch upsert is atomic: it writes either all of `vectors` or
nothing). -/
def ingestAttempt (o : PipelineOracle) (job : IngestJob) :
    Except Unit SuccessData × List VectorEntry :=
  match resolveManualBytes o job with
  | .error e => (.error e, [])
  | .ok manualBytes =>
  match (match manualBytes with | some _ => o.putManual | none => .ok ()) with
  | .error e => (.error e, [])
  | .ok _ =>
  match resolveManualText o job manualBytes with
  | .error e => (.error e, [])
  | .ok manualText =>
  match o.putText with
  | .error e => (.error e, [])
  | .ok _ =>
  match extractApplianceSpecs o.spec manualText with
  | .error e => (.error e, [])
  | .ok specs =>
  match o.getPrefs with
  | .error e => (.error e, [])
  | .ok _ =>
  match generateApplianceInstructions o.instrAi with
  | .error e => (.error e, [])
  | .ok agentInstructions =>
  let chunks := ingestionChunks manualText
  match buildVectorsAux job.applianceId o.embedAi 0 chunks with
  | .error e => (.error e, [])
  | .ok vectors =>
  match (match vectors with | [] => Except.ok () | _ => o.upsert) with
  | .error e => (.error e, [])
  | .ok _ =>
  match o.finalUpdate with
  | .error e => (.error e, vectors)
  | .ok _ =>
    (.ok { specs := specs
           storedSpecs := { base := specs, vectorChunkCount := vectors.length }
           agentInstructions := if agentInstructions = [] then none else some agentInstructions
           brandUpdate :=
             match specs with
             | some s => match s.brand with
               | some b => if b ≠ "" then some b else none
               | none => none
             | none => none
           modelUpdate :=
             match specs with
             | some s => match s.model with
               | some m => if m ≠ "" then some m else none
               | none => none
             | none => none }, vectors)

/-- One `processing_status`-bearing DB write issued for the appliance. -/
inductive DbWrite where
  | processing
  | completed (d : SuccessData)
  | failed

/-- Function `runApplianceIngestion` (worker.ts:661-763): the sequence of
status writes it issues and the vector entries it upserts.  The initial
`PROCESSING` write sits outside the `try`; the `catch` writes `FAILED`. -/
def runApplianceIngestion (o : PipelineOracle) (job : IngestJob) :
    List DbWrite × List VectorEntry :=
  match o.statusProcessing with
  | .error _ => ([], [])
  | .ok _ =>
    match ingestAttempt o job with
    | (.ok d, ups) => ([.processing, .completed d], ups)
    | (.error _, ups) =>
      match o.statusFailed with
      | .ok _ => ([.processing, .failed], ups)
      | .error _ => ([.processing], ups)

/-- The status carried by a DB write. -/
def writeStatus : DbWrite → ProcessingStatus
  | .processing => .processing
  | .completed _ => .completed
  | .failed => .failed

/-- The full status history of one ingestion job: `QUEUED` is written by the
creating request (worker.ts:1327) before the job is dispatched. -/
def jobStatusTrace (o : PipelineOracle) (job : IngestJob) : List ProcessingStatus :=
  ProcessingStatus.queued :: ((runApplianceIngestion o job).1.map writeStatus)

/-- The stored `extracted_specs_json` as read back by the delete endpoint;
only `vectorChunkCount` matters there.  The ingestion path always stores an
integer, legacy rows may miss the field entirely (`none`). -/
structure StoredSpecsRow where
  vectorChunkCount : Option Int

/-- The appliance row fields the delete endpoint consults (worker.ts:1440-1500). -/
structure KitchenApplianceRow where
  userId : String
  manualR2Key : Option String
  ocrTextR2Key : Option String
  extractedSpecs : Option StoredSpecsRow

/-- The chunk count the delete endpoint derives:
`Number(appliance.extractedSpecs?.vectorChunkCount ?? 0)` (worker.ts:1471).
`Number.isFinite` holds for every integer, so it is not modelled. -/
def deleteChunkCount (a : KitchenApplianceRow) : Int :=
  (a.extractedSpecs.bind (·.vectorChunkCount)).getD 0

/-- The ids passed to `APPLIANCE_VEC.delete` (worker.ts:1471-1479): enumerate
`appliance:{id}:chunk:0..count-1` for a positive finite count, else the
single legacy-shaped id. -/
def deleteVectorIds (id : String) (a : KitchenApplianceRow) : List String :=
  if 0 < deleteChunkCount a then
    (List.range (deleteChunkCount a).toNat).map (chunkVectorId id)
  else [legacyVectorId id]

/-- The object-storage keys the delete endpoint removes (worker.ts:1456-1469):
the manual PDF and the extracted text, each when present. -/
def deleteObjectKeys (a : KitchenApplianceRow) : List String :=
  a.manualR2Key.toList ++ a.ocrTextR2Key.toList

/-- One multipart form value: an uploaded file (bytes plus their UTF-8
decoding, which only `text_file` uses) or a plain string field. -/
inductive FormVal where
  | file (bytes : List Nat) (decoded : JStr) (contentType : String)
  | str (s : String)

/-- A create-appliance request as the endpoint sees it: the `Content-Type`
header and the parsed form (`none` models `formData()` throwing). -/
structure CreateRequest where
  contentTypeHdr : String
  form : Option (List (String × FormVal))

/-- JS `form.get(k)`: the first value under the key. -/
def formGet (form : List (String × FormVal)) (k : String) : Option FormVal :=
  (form.find? (fun kv => kv.1 = k)).map (·.2)

/-- Substring test on code-unit lists, modelling JS
`String.prototype.includes`. -/
def listHasSub : List Char → List Char → Bool
  | l, pat =>
    if pat.isPrefixOf l then true
    else
      match l with
      | [] => false
      | _ :: rest => listHasSub rest pat

/-- Substring test, modelling JS `String.prototype.includes`. -/
def strContains (s pat : String) : Bool := listHasSub s.data pat.data

/-- Outcome of `POST /api/kitchen/appliances` (worker.ts:1246-1345): either a
synchronous 4xx rejection, or HTTP 202 after creating the appliance row in
`QUEUED` and dispatching the ingestion job via `waitUntil`. -/
inductive CreateResult where
  | badRequest (msg : String)
  | accepted (applianceId : String) (job : IngestJob)

/-- The create-appliance endpoint (worker.ts:1246-1345), with the freshly
generated UUID supplied as `applianceId`. -/
def createApplianceEndpoint (req : CreateRequest) (applianceId : String) : CreateResult :=
  let userId := "admin"
  if ¬ strContains req.contentTypeHdr "multipart/form-data" then
    .badRequest "Content-Type must be multipart/form-data"
  else
    match req.form with
    | none => .badRequest "invalid form data"
    | some form =>
      let manualField := (formGet form "manual_file").orElse (fun _ => formGet form "manual")
      let manualUrlField := formGet form "manual_url"
      let textField := (formGet form "text_file").orElse (fun _ => formGet form "text")
      let nickname :=
        match formGet form "nickname" with
        | some (.str s) => if trimS s = "" then none else some (trimS s)
        | _ => none
      let hasFile := match manualField with | some (.file ..) => true | _ => false
      let hasUrl :=
        match manualUrlField with | some (.str s) => (jsTrim s.data).length > 0 | _ => false
      let hasTextFile := match textField with | some (.file ..) => true | _ => false
      let hasTextString :=
        match textField with | some (.str s) => (jsTrim s.data).length > 0 | _ => false
      if !(hasFile || hasUrl || hasTextFile || hasTextString) then
        .badRequest "manual_file, manual_url, text_file, or text required"
      else if (match manualField with | some (.str s) => s != "" | _ => false) then
        .badRequest "manual_file must be a file upload"
      else
        let manualBytes := match manualField with | some (.file b _ _) => some b | _ => none
        let extractedText :=
          match textField with
          | some (.file _ dec _) => some dec
          | some (.str s) => if (jsTrim s.data).length > 0 then some (jsTrim s.data) else none
          | none => none
        let manualUrl :=
          if hasUrl then
            match manualUrlField with | some (.str s) => some (trimS s) | _ => none
          else none
        .accepted applianceId
          { userId := userId
            applianceId := applianceId
            manualKey := "appliances/" ++ userId ++ "/" ++ applianceId ++ "/manual.pdf"
            manualUrl := manualUrl
            pdfBytes := manualBytes
            nickname := nickname
            extractedText := extractedText }

/-- The outcome of `generateApplianceAdaptation` (ai.ts:457-521). -/
structure AdaptationResult where
  tailoredSteps : List String
  summaryOfChanges : String

/-- The fixed fallback summary returned on a JSON parse failure (ai.ts:519). -/
def adaptFallbackSummary : String := "Unable to adapt recipe with the provided manual excerpts."

/-- The `tailored_steps` / `tailoredSteps` lenient array read (ai.ts:498-503). -/
def adaptStepsFromJson (parsed : JVal) : List String :=
  match getField parsed "tailored_steps" with
  | some (.jarr xs) => jsToStringList xs
  | _ =>
    match getField parsed "tailoredSteps" with
    | some (.jarr xs) => jsToStringList xs
    | _ => []

/-- The `summary_of_changes` / `summaryOfChanges` lenient string read
(ai.ts:504-508). -/
def adaptSummaryFromJson (parsed : JVal) : String :=
  match getField parsed "summary_of_changes" with
  | some (.jstr s) => s
  | _ =>
    match getField parsed "summaryOfChanges" with
    | some (.jstr s) => s
    | _ => ""

/-- Parsing half of `generateApplianceAdaptation` (ai.ts:482-521): `raw` is
the shape-extracted model text (`none` defaults to `"\x7b\x7d"`), `parse`
models `JSON.parse`.  The prompt inputs (instructions, excerpts, title)
shape only the model prompt, never this result. -/
def generateApplianceAdaptation (parse : JStr → Option JVal) (raw : Option JStr)
    (recipeSteps : List String) : AdaptationResult :=
  match parse (stripCodeFence (raw.getD "\x7b\x7d".toList)) with
  | some parsed =>
    { tailoredSteps := adaptStepsFromJson parsed
      summaryOfChanges := adaptSummaryFromJson parsed }
  | none =>
    { tailoredSteps := recipeSteps
      summaryOfChanges := adaptFallbackSummary }

/-- A recipe step as the adapt endpoint reads it. -/
structure RecipeStep where
  instruction : String

/-- A recipe as the adapt endpoint reads it. -/
structure Recipe where
  title : String
  steps : List RecipeStep

/-- The appliance fields the adapt endpoint consults. -/
structure ApplianceRec where
  userId : String
  processingStatus : ProcessingStatus
  agentInstructions : Option String
  ocrTextR2Key : Option String

/-- Collaborator outcomes for one `POST /api/recipes/:id/adapt` request.
`parseBody` is `none` when the JSON body fails to parse; its value is the
`appliance_id` field when that is a string.  The retrieval calls
(summarize, embed, vector query, excerpt fallback) only shape the model
prompt and are not modelled. -/
structure AdaptDeps where
  parseBody : Option (Option String)
  recipe : Option Recipe
  appliance : Option ApplianceRec
  adaptRaw : Option JStr
  parseJson : JStr → Option JVal

/-- An HTTP response of the adapt endpoint: an error status or a 200 payload
`{tailored_steps, summary_of_changes}`. -/
inductive AdaptResponse where
  | err (status : Nat) (msg : String)
  | success (tailoredSteps : List String) (summaryOfChanges : String)

/-- The adapt endpoint `POST /api/recipes/:id/adapt` (worker.ts:2140-2224). -/
def adaptRecipeEndpoint (auth : Option String) (recipeIdParam : String)
    (deps : AdaptDeps) : AdaptResponse :=
  match auth with
  | none => .err 401 "authentication required"
  | some userId =>
    if recipeIdParam = "" then .err 400 "recipe id required"
    else
      match deps.parseBody with
      | none => .err 400 "invalid JSON body"
      | some bodyApplianceId =>
        let applianceId := trimS (bodyApplianceId.getD "")
        if applianceId = "" then .err 400 "appliance_id is required"
        else
          match deps.recipe with
          | none => .err 404 "recipe not found"
          | some recipe =>
            match deps.appliance with
            | none => .err 404 "appliance not found"
            | some a =>
              if a.userId ≠ userId then .err 404 "appliance not found"
              else if a.processingStatus ≠ .completed then
                .err 409 "appliance processing incomplete"
              else
                let originalSteps := recipe.steps.map (·.instruction)
                let adaptation :=
                  generateApplianceAdaptation deps.parseJson deps.adaptRaw originalSteps
                .success adaptation.tailoredSteps adaptation.summaryOfChanges

/-- The overlap relation between two consecutive chunks: when the earlier
chunk is at least `ov` long, the later chunk starts with the earlier
chunk's `ov`-unit suffix stripped of its leading whitespace. -/
def overlapRel (ov : Nat) (prev next : JStr) : Prop :=
  ov ≤ prev.length → trimL (jsSliceNeg ov prev) <+: next

/-- Invariant carried through the paragraph-accumulation fold: the emitted
chunks satisfy the overlap relation pairwise, the buffer has no trailing
whitespace, the buffer is empty only before the first paragraph, and the last
emitted chunk stands in the overlap relation to the trimmed buffer. -/
structure ChunkInv (ov : Nat) (st : List JStr × JStr) : Prop where
  chain : List.Chain' (overlapRel ov) st.1
  cur_nil : st.2 = [] → st.1 = []
  cur_fixR : st.2 ≠ [] → trimR st.2 = st.2
  last_rel : ∀ c, st.1.getLast? = some c → overlapRel ov c (jsTrim st.2)

/-- Concrete chunker input refuting the literal overlap claim: paragraphs of
900, 198 and 200 identical letters.  The 198-letter middle paragraph makes
the 200-unit overlap window of the first emitted chunk start inside the
re-inserted blank-line separator. -/
def paraA : JStr := List.replicate 900 'a'

/-- Middle paragraph of the overlap counterexample (198 letters). -/
def paraB : JStr := List.replicate 198 'b'

/-- Last paragraph of the overlap counterexample (200 letters). -/
def paraC : JStr := List.replicate 200 'c'

/-- The full counterexample text: three paragraphs joined by blank lines. -/
def c8text : JStr := paraA ++ nl2 ++ paraB ++ nl2 ++ paraC

/-- First chunk the chunker emits on `c8text` (1100 units long). -/
def c8chunk0 : JStr := paraA ++ nl2 ++ paraB

/-- Second chunk the chunker emits on `c8text`: the leading whitespace of the
200-unit overlap seed has been trimmed away. -/
def c8chunk1 : JStr := paraB ++ (nl2 ++ paraC)

/-- A 1000-unit local-extraction result for the text-source-resolver claim. -/
def c2local : JStr := List.replicate 1000 'a'

/-- A 900-unit OCR result for the text-source-resolver claim. -/
def c2ocr : JStr := List.replicate 900 'b'

/-- A stored appliance row whose ingestion wrote `vectorChunkCount = 3`. -/
def c4row : KitchenApplianceRow :=
  { userId := "admin"
    manualR2Key := some "appliances/admin/A1/manual.pdf"
    ocrTextR2Key := some "appliances/admin/A1/extracted_text.txt"
    extractedSpecs := some { vectorChunkCount := some 3 } }

/-- Whether the embedding outcome for an (index, chunk) pair yields a
non-empty vector, i.e. whether the loop keeps the chunk (worker.ts:719). -/
def embeddedNonEmpty (embedAi : Nat → Except Unit (List Int)) (p : Nat × JStr) : Bool :=
  match embedText (embedAi p.1) p.2 with
  | .ok [] => false
  | _ => true

/-- A pipeline oracle whose every external call succeeds; the spec model
yields text that fails to parse as JSON, the instruction model an
unrecognized response shape, and every embedding the vector `[1]`. -/
def oracleOk : PipelineOracle :=
  { statusProcessing := .ok ()
    fetchManual := .ok []
    putManual := .ok ()
    ocrText := .ok ['o']
    putText := .ok ()
    spec := { aiRun := .ok (some "x".toList), parseJson := fun _ => none }
    getPrefs := .ok ()
    instrAi := .ok none
    embedAi := fun _ => .ok [1]
    upsert := .ok ()
    finalUpdate := .ok ()
    statusFailed := .ok () }

/-- The all-success oracle with every embedding call returning the empty
vector (a degenerate embedding response). -/
def oracleEmb0 : PipelineOracle := { oracleOk with embedAi := fun _ => .ok [] }

/-- The all-success oracle with the spec-extraction model call rejecting. -/
def oracleC6Bad : PipelineOracle :=
  { oracleOk with spec := { aiRun := .error (), parseJson := fun _ => none } }

/-- A caller-supplied-text ingestion job (no bytes, no URL). -/
def jobText : IngestJob :=
  { userId := "admin"
    applianceId := "A1"
    manualKey := "appliances/admin/A1/manual.pdf"
    manualUrl := none
    pdfBytes := none
    nickname := none
    extractedText := some ['t'] }

/-- The completion record `runApplianceIngestion oracleOk jobText` persists:
no parsed spec, one vector chunk, no agent instructions. -/
def dText : SuccessData :=
  { specs := none
    storedSpecs := { base := none, vectorChunkCount := 1 }
    agentInstructions := none
    brandUpdate := none
    modelUpdate := none }

/-- The completion record when every embedding comes back empty: zero vector
chunks. -/
def dEmpty : SuccessData :=
  { specs := none
    storedSpecs := { base := none, vectorChunkCount := 0 }
    agentInstructions := none
    brandUpdate := none
    modelUpdate := none }

/-- A create-appliance request supplying only a manual URL with an `ftp`
scheme. -/
def reqFtp : CreateRequest :=
  { contentTypeHdr := "multipart/form-data; boundary=x"
    form := some [("manual_url", FormVal.str "ftp://host/manual.pdf")] }

/-- The ingestion job the endpoint dispatches for `reqFtp`. -/
def jobFtp : IngestJob :=
  { userId := "admin"
    applianceId := "A1"
    manualKey := "appliances/admin/A1/manual.pdf"
    manualUrl := some "ftp://host/manual.pdf"
    pdfBytes := none
    nickname := none
    extractedText := none }

/-- Adaptation-endpoint collaborators for the degraded-mode scenario: checks
pass, the generation model returns unparsable text. -/
def adaptDeps9 : AdaptDeps :=
  { parseBody := some (some "APP1")
    recipe := some { title := "Cake", steps := [{ instruction := "bake" }] }
    appliance := some { userId := "admin", processingStatus := .completed,
                        agentInstructions := none, ocrTextR2Key := none }
    adaptRaw := some "this is not json".toList
    parseJson := fun _ => none }

/-- A model response that parses to an object carrying only a change summary
and no tailored-steps array. -/
def c10raw : JStr := "\x7b\"summary_of_changes\":\"left as-is\"\x7d".toList

/-- JSON.parse model for `c10raw`: that one string parses to the
summary-only object, everything else throws. -/
def parse10 : JStr → Option JVal := fun s =>
  if s = c10raw then some (.jobj [("summary_of_changes", .jstr "left as-is")])
  else none

/-- Original recipe steps for the no-array-fields scenario. -/
def steps10 : List String := ["preheat", "bake"]

/-- Adaptation-endpoint collaborators for the no-array-fields scenario. -/
def adaptDeps10 : AdaptDeps :=
  { parseBody := some (some "APP1")
    recipe := some { title := "Cake",
                     steps := [{ instruction := "preheat" }, { instruction := "bake" }] }
    appliance := some { userId := "admin", processingStatus := .completed,
                        agentInstructions := none, ocrTextR2Key := none }
    adaptRaw := some c10raw
    parseJson := parse10 }

/-!  Lemmas about the whitespace trimming primitives. -/

theorem trimL_nil : trimL [] = [] := rfl

theorem trimL_cons (c : Char) (t : JStr) :
    trimL (c :: t) = if c.isWhitespace then trimL t else c :: t := by
  simp [trimL, List.dropWhile_cons]

theorem trimL_length_le (s : JStr) : (trimL s).length ≤ s.length := by
  induction s with
  | nil => simp [trimL_nil]
  | cons c t ih =>
    rw [trimL_cons]
    split
    · exact Nat.le_trans ih (Nat.le_succ _)
    · exact Nat.le_refl _

theorem head_not_ws_of_trimL_fix {c : Char} {t : JStr} (h : trimL (c :: t) = c :: t) :
    c.isWhitespace = false := by
  cases hw : c.isWhitespace with
  | false => rfl
  | true =>
    rw [trimL_cons, if_pos hw] at h
    have hlen := congrArg List.length h
    have := trimL_length_le t
    simp at hlen
    omega

theorem trimL_fix_append {a : JStr} (ha : trimL a = a) (hne : a ≠ []) (b : JStr) :
    trimL (a ++ b) = a ++ b := by
  cases a with
  | nil => exact absurd rfl hne
  | cons c t =>
    have hc := head_not_ws_of_trimL_fix ha
    rw [List.cons_append, trimL_cons, if_neg (by simp [hc])]

theorem trimL_append_of_ne_nil {a : JStr} (h : trimL a ≠ []) (b : JStr) :
    trimL (a ++ b) = trimL a ++ b := by
  induction a with
  | nil => exact absurd trimL_nil h
  | cons c t ih =>
    rw [trimL_cons] at h
    rw [List.cons_append, trimL_cons, trimL_cons]
    cases hw : c.isWhitespace with
    | true =>
      rw [hw] at h
      simp only [if_true]
      exact ih (by simpa using h)
    | false => simp [hw]

theorem trimL_idem (s : JStr) : trimL (trimL s) = trimL s := by
  induction s with
  | nil => simp [trimL_nil]
  | cons c t ih =>
    rw [trimL_cons]
    cases hw : c.isWhitespace with
    | true => simpa using ih
    | false => simp [trimL_cons, hw]

theorem trimL_eq_nil_iff {s : JStr} : trimL s = [] ↔ ∀ c ∈ s, c.isWhitespace := by
  simp [trimL, List.dropWhile_eq_nil_iff]

theorem trimL_eq_drop (s : JStr) : ∃ k, k ≤ s.length ∧ trimL s = s.drop k := by
  induction s with
  | nil => exact ⟨0, Nat.le_refl _, rfl⟩
  | cons c t ih =>
    rw [trimL_cons]
    cases hw : c.isWhitespace with
    | true =>
      obtain ⟨k, hk, he⟩ := ih
      exact ⟨k + 1, by simpa using Nat.succ_le_succ hk, by simpa using he⟩
    | false => exact ⟨0, Nat.zero_le _, by simp⟩

theorem sliceNeg_trimL {s : JStr} {ov : Nat} (h : ov ≤ (trimL s).length) :
    jsSliceNeg ov (trimL s) = jsSliceNeg ov s := by
  obtain ⟨k, hk, he⟩ := trimL_eq_drop s
  rw [he] at h ⊢
  unfold jsSliceNeg
  rw [List.length_drop] at h ⊢
  rw [List.drop_drop]
  congr 1
  omega

theorem trimL_take_fix {s : JStr} (h : trimL s = s) (n : Nat) :
    trimL (s.take n) = s.take n := by
  cases s with
  | nil => simp [trimL_nil]
  | cons c t =>
    cases n with
    | zero => simp [trimL_nil]
    | succ m =>
      have hc := head_not_ws_of_trimL_fix h
      rw [List.take_succ_cons, trimL_cons, if_neg (by simp [hc])]

theorem trimR_nil : trimR [] = [] := rfl

theorem trimL_reverse_of_trimR_fix {s : JStr} (h : trimR s = s) :
    trimL s.reverse = s.reverse := by
  have := congrArg List.reverse h
  rwa [trimR, List.reverse_reverse] at this

theorem trimR_fix_append {p : JStr} (hp : trimR p = p) (hne : p ≠ []) (x : JStr) :
    trimR (x ++ p) = x ++ p := by
  unfold trimR
  rw [List.reverse_append,
    trimL_fix_append (trimL_reverse_of_trimR_fix hp) (by simpa using hne),
    ← List.reverse_append, List.reverse_reverse]

theorem trimR_drop_fix {s : JStr} (h : trimR s = s) (n : Nat) :
    trimR (s.drop n) = s.drop n := by
  unfold trimR
  rw [List.reverse_drop, trimL_take_fix (trimL_reverse_of_trimR_fix h),
    ← List.reverse_drop, List.reverse_reverse]

theorem trimL_ne_nil_of_trimR_fix {s : JStr} (h : trimR s = s) (hne : s ≠ []) :
    trimL s ≠ [] := by
  intro hnil
  rw [trimL_eq_nil_iff] at hnil
  have hrev : trimL s.reverse = [] :=
    trimL_eq_nil_iff.2 (fun c hc => hnil c (List.mem_reverse.1 hc))
  have : trimR s = [] := by rw [trimR, hrev, List.reverse_nil]
  exact hne (this ▸ h.symm)

theorem trimR_idem (s : JStr) : trimR (trimR s) = trimR s := by
  unfold trimR
  rw [List.reverse_reverse, trimL_idem]

theorem jsTrim_eq_trimL_of_trimR_fix {s : JStr} (h : trimR s = s) : jsTrim s = trimL s := by
  rw [jsTrim, h]

theorem jsTrim_trimL_fix (q : JStr) : trimL (jsTrim q) = jsTrim q := by
  rw [jsTrim, trimL_idem]

theorem jsTrim_trimR_fix (q : JStr) : trimR (jsTrim q) = jsTrim q := by
  rw [jsTrim]
  obtain ⟨k, _, he⟩ := trimL_eq_drop (trimR q)
  rw [he]
  exact trimR_drop_fix (trimR_idem q) k

theorem jsTrim_ne_nil_of_trimR_fix {s : JStr} (h : trimR s = s) (hne : s ≠ []) :
    jsTrim s ≠ [] := by
  rw [jsTrim_eq_trimL_of_trimR_fix h]
  exact trimL_ne_nil_of_trimR_fix h hne

theorem manualParagraphs_props (text : JStr) :
    ∀ p ∈ manualParagraphs text, p ≠ [] ∧ trimL p = p ∧ trimR p = p := by
  intro p hp
  unfold manualParagraphs at hp
  rw [List.mem_filter] at hp
  obtain ⟨hmem, hne⟩ := hp
  rw [List.mem_map] at hmem
  obtain ⟨q, _, rfl⟩ := hmem
  refine ⟨by simpa using hne, jsTrim_trimL_fix q, jsTrim_trimR_fix q⟩

theorem append_nl2_ne_nil (a p : JStr) : a ++ nl2 ++ p ≠ [] := by
  intro h
  rcases List.append_eq_nil.1 h with ⟨h1, -⟩
  rcases List.append_eq_nil.1 h1 with ⟨-, h2⟩
  simp [nl2] at h2

theorem trimR_append_nl2 {p : JStr} (hpne : p ≠ []) (hpR : trimR p = p) (a : JStr) :
    trimR (a ++ nl2 ++ p) = a ++ nl2 ++ p :=
  trimR_fix_append hpR hpne (a ++ nl2)

theorem jsTrim_append_nl2 {a p : JStr} (hpne : p ≠ []) (hpR : trimR p = p)
    (haL : trimL a ≠ []) : jsTrim (a ++ nl2 ++ p) = trimL a ++ (nl2 ++ p) := by
  rw [jsTrim_eq_trimL_of_trimR_fix (trimR_append_nl2 hpne hpR a), List.append_assoc]
  exact trimL_append_of_ne_nil haL (nl2 ++ p)

theorem chunkInv_step (cs ov : Nat) (hov : 1 ≤ ov) (st : List JStr × JStr) (p : JStr)
    (hpne : p ≠ []) (_hpL : trimL p = p) (hpR : trimR p = p)
    (h : ChunkInv ov st) : ChunkInv ov (chunkStep cs ov st p) := by
  unfold chunkStep
  by_cases hcond : (jsTrim (st.2 ++ nl2 ++ p)).length > cs ∧ st.2 ≠ []
  · rw [if_pos hcond]
    have hfix : trimR st.2 = st.2 := h.cur_fixR hcond.2
    have hcurL : trimL st.2 ≠ [] := trimL_ne_nil_of_trimR_fix hfix hcond.2
    refine ⟨?_, ?_, ?_, ?_⟩
    · refine h.chain.append (List.chain'_singleton _) ?_
      intro x hx y hy
      simp only [List.head?_cons, Option.mem_def, Option.some.injEq] at hy
      subst hy
      exact h.last_rel x hx
    · intro hnil
      exact absurd hnil (append_nl2_ne_nil _ _)
    · intro _
      exact trimR_append_nl2 hpne hpR _
    · intro c hc
      rw [List.getLast?_concat] at hc
      cases hc
      intro hlen
      rw [jsTrim_eq_trimL_of_trimR_fix hfix] at hlen ⊢
      rw [sliceNeg_trimL hlen]
      have hA_fixR : trimR (jsSliceNeg ov st.2) = jsSliceNeg ov st.2 :=
        trimR_drop_fix hfix _
      have hA_ne : jsSliceNeg ov st.2 ≠ [] := by
        have h1 : 1 ≤ st.2.length := List.length_pos.2 hcond.2
        intro habs
        have := congrArg List.length habs
        unfold jsSliceNeg at this
        rw [List.length_drop] at this
        simp at this
        omega
      have hAtl : trimL (jsSliceNeg ov st.2) ≠ [] :=
        trimL_ne_nil_of_trimR_fix hA_fixR hA_ne
      rw [jsTrim_append_nl2 hpne hpR hAtl]
      exact List.prefix_append _ _
  · rw [if_neg hcond]
    by_cases hcur : st.2 ≠ []
    · rw [if_pos hcur]
      have hfix : trimR st.2 = st.2 := h.cur_fixR hcur
      have hcurL : trimL st.2 ≠ [] := trimL_ne_nil_of_trimR_fix hfix hcur
      refine ⟨h.chain, ?_, ?_, ?_⟩
      · intro hnil
        exact absurd hnil (append_nl2_ne_nil _ _)
      · intro _
        exact trimR_append_nl2 hpne hpR _
      · intro c hc hlen
        have hrel := h.last_rel c hc hlen
        rw [jsTrim_eq_trimL_of_trimR_fix hfix] at hrel
        rw [jsTrim_append_nl2 hpne hpR hcurL]
        exact hrel.trans (List.prefix_append _ _)
    · rw [if_neg hcur]
      push_neg at hcur
      have hchunks : st.1 = [] := h.cur_nil hcur
      refine ⟨?_, ?_, fun _ => hpR, ?_⟩
      · rw [hchunks]; exact List.chain'_nil
      · intro hnil
        exact absurd hnil hpne
      · intro c hc
        rw [hchunks] at hc
        simp at hc

theorem chunkInv_foldl (cs ov : Nat) (hov : 1 ≤ ov) (ps : List JStr)
    (hps : ∀ p ∈ ps, p ≠ [] ∧ trimL p = p ∧ trimR p = p)
    (st : List JStr × JStr) (hst : ChunkInv ov st) :
    ChunkInv ov (ps.foldl (chunkStep cs ov) st) := by
  induction ps generalizing st with
  | nil => exact hst
  | cons p rest ih =>
    rw [List.foldl_cons]
    obtain ⟨h1, h2, h3⟩ := hps p (List.mem_cons_self _ _)
    exact ih (fun q hq => hps q (List.mem_cons_of_mem _ hq))
      _ (chunkInv_step cs ov hov st p h1 h2 h3 hst)

theorem chunkManualText_chain (text : JStr) (cs ov : Nat) (hov : 1 ≤ ov) :
    List.Chain' (overlapRel ov) (chunkManualText text cs ov) := by
  have hinv0 : ChunkInv ov (([] : List JStr), ([] : JStr)) :=
    ⟨List.chain'_nil, fun _ => rfl, fun h => absurd rfl h, fun c hc => by simp at hc⟩
  have hinv := chunkInv_foldl cs ov hov (manualParagraphs text)
    (fun p hp => manualParagraphs_props text p hp) _ hinv0
  simp only [chunkManualText]
  set st := (manualParagraphs text).foldl (chunkStep cs ov) ([], []) with hst
  by_cases hcur : jsTrim st.2 ≠ []
  · rw [if_pos hcur]
    have hchain : List.Chain' (overlapRel ov) (st.1 ++ [jsTrim st.2]) := by
      refine hinv.chain.append (List.chain'_singleton _) ?_
      intro x hx y hy
      simp only [List.head?_cons, Option.mem_def, Option.some.injEq] at hy
      subst hy
      exact hinv.last_rel x hx
    split
    · exact hchain
    · exact List.chain'_singleton text
  · rw [if_neg hcur]
    split
    · exact hinv.chain
    · exact List.chain'_singleton text

/-!  Symbolic evaluation lemmas, used to settle concrete chunker inputs whose
size (forced by the 1200-unit chunk threshold) is beyond kernel reduction. -/

theorem replaceCRLF_eq_self : ∀ {s : JStr}, '\r' ∉ s → replaceCRLF s = s
  | [], _ => rfl
  | [_], _ => rfl
  | c :: d :: rest, h => by
    have hc : c ≠ '\r' := fun e => h (by simp [e])
    have hrest : '\r' ∉ d :: rest := fun m => h (List.mem_cons_of_mem _ m)
    simp only [replaceCRLF]
    rw [if_neg (by simp [hc]), replaceCRLF_eq_self hrest]

theorem splitStep_newline (ps : List JStr) (cur : JStr) (pend : Nat) :
    splitStepChar ⟨ps, cur, pend⟩ '\n' = ⟨ps, cur, pend + 1⟩ := by
  simp [splitStepChar]

theorem splitStep_sep {c : Char} (hc : c ≠ '\n') (ps : List JStr) (cur : JStr)
    {pend : Nat} (hp : pend ≥ 2) :
    splitStepChar ⟨ps, cur, pend⟩ c = ⟨ps ++ [cur.reverse], [c], 0⟩ := by
  simp [splitStepChar, hc, hp]

theorem splitStep_plain {c : Char} (hc : c ≠ '\n') (ps : List JStr) (cur : JStr) :
    splitStepChar ⟨ps, cur, 0⟩ c = ⟨ps, c :: cur, 0⟩ := by
  simp [splitStepChar, hc]

theorem foldl_split_replicate {c : Char} (hc : c ≠ '\n') :
    ∀ (n : Nat) (ps : List JStr) (cur : JStr),
      (List.replicate n c).foldl splitStepChar ⟨ps, cur, 0⟩ =
        ⟨ps, List.replicate n c ++ cur, 0⟩ := by
  intro n
  induction n with
  | zero => intro ps cur; simp
  | succ m ih =>
    intro ps cur
    rw [List.replicate_succ, List.foldl_cons, splitStep_plain hc, ih,
      show (c :: cur : JStr) = [c] ++ cur from rfl, ← List.append_assoc,
      ← List.replicate_succ', List.replicate_succ]

theorem foldl_split_nl2 (ps : List JStr) (cur : JStr) :
    nl2.foldl splitStepChar ⟨ps, cur, 0⟩ = ⟨ps, cur, 2⟩ := by
  rw [show nl2 = ['\n', '\n'] from rfl, List.foldl_cons, splitStep_newline,
    List.foldl_cons, splitStep_newline, List.foldl_nil]

theorem trimL_replicate {c : Char} (h : c.isWhitespace = false) (n : Nat) :
    trimL (List.replicate n c) = List.replicate n c := by
  cases n with
  | zero => rfl
  | succ m => rw [List.replicate_succ, trimL_cons, if_neg (by simp [h])]

theorem trimR_replicate {c : Char} (h : c.isWhitespace = false) (n : Nat) :
    trimR (List.replicate n c) = List.replicate n c := by
  unfold trimR
  rw [List.reverse_replicate, trimL_replicate h, List.reverse_replicate]

theorem jsTrim_replicate {c : Char} (h : c.isWhitespace = false) (n : Nat) :
    jsTrim (List.replicate n c) = List.replicate n c := by
  rw [jsTrim, trimR_replicate h, trimL_replicate h]

theorem replicate_ne_nil {c : Char} {n : Nat} (h : 0 < n) : List.replicate n c ≠ [] := by
  intro habs
  have := congrArg List.length habs
  simp at this
  omega

theorem paraA_props : paraA ≠ [] ∧ trimL paraA = paraA ∧ trimR paraA = paraA :=
  ⟨replicate_ne_nil (by omega), trimL_replicate (by decide) _, trimR_replicate (by decide) _⟩

theorem paraB_props : paraB ≠ [] ∧ trimL paraB = paraB ∧ trimR paraB = paraB :=
  ⟨replicate_ne_nil (by omega), trimL_replicate (by decide) _, trimR_replicate (by decide) _⟩

theorem paraC_props : paraC ≠ [] ∧ trimL paraC = paraC ∧ trimR paraC = paraC :=
  ⟨replicate_ne_nil (by omega), trimL_replicate (by decide) _, trimR_replicate (by decide) _⟩

theorem splitParas_c8 : splitParas c8text = [paraA, paraB, paraC] := by
  have h1 : List.foldl splitStepChar ⟨[], [], 0⟩ paraA = ⟨[], paraA, 0⟩ := by
    unfold paraA
    rw [foldl_split_replicate (by decide), List.append_nil]
  have h3 : List.foldl splitStepChar ⟨[], paraA, 2⟩ paraB = ⟨[paraA], paraB, 0⟩ := by
    unfold paraB
    rw [show (198 : Nat) = 197 + 1 from rfl, List.replicate_succ, List.foldl_cons,
      splitStep_sep (by decide) _ _ (by omega), foldl_split_replicate (by decide)]
    unfold paraA
    rw [List.reverse_replicate, List.nil_append,
      show (List.replicate 197 'b' ++ ['b'] : JStr) = List.replicate (197 + 1) 'b' from
        (List.replicate_succ' ..).symm]
    rfl
  have h5 : List.foldl splitStepChar ⟨[paraA], paraB, 2⟩ paraC = ⟨[paraA, paraB], paraC, 0⟩ := by
    unfold paraC
    rw [show (200 : Nat) = 199 + 1 from rfl, List.replicate_succ, List.foldl_cons,
      splitStep_sep (by decide) _ _ (by omega), foldl_split_replicate (by decide)]
    unfold paraB
    rw [List.reverse_replicate,
      show (List.replicate 199 'c' ++ ['c'] : JStr) = List.replicate (199 + 1) 'c' from
        (List.replicate_succ' ..).symm]
    rfl
  simp only [splitParas, c8text]
  rw [List.foldl_append, List.foldl_append, List.foldl_append, List.foldl_append,
    h1, foldl_split_nl2, h3, foldl_split_nl2, h5]
  dsimp only
  rw [if_neg (by omega)]
  simp only [List.replicate, List.nil_append]
  rw [show paraC.reverse = paraC from by unfold paraC; exact List.reverse_replicate ..]
  rfl

theorem manualParagraphs_c8 : manualParagraphs c8text = [paraA, paraB, paraC] := by
  have hrep : ∀ {n : Nat} {c : Char}, '\r' ∈ List.replicate n c → '\r' = c :=
    fun hm => List.eq_of_mem_replicate hm
  have hr : '\r' ∉ c8text := by
    intro h
    unfold c8text at h
    rcases List.mem_append.1 h with h | h
    · rcases List.mem_append.1 h with h | h
      · rcases List.mem_append.1 h with h | h
        · rcases List.mem_append.1 h with h | h
          · unfold paraA at h; exact absurd (hrep h) (by decide)
          · exact absurd h (by decide)
        · unfold paraB at h; exact absurd (hrep h) (by decide)
      · exact absurd h (by decide)
    · unfold paraC at h; exact absurd (hrep h) (by decide)
  unfold manualParagraphs
  rw [replaceCRLF_eq_self hr, splitParas_c8]
  rw [show List.map jsTrim [paraA, paraB, paraC] = [paraA, paraB, paraC] from by
    simp only [List.map]
    rw [show jsTrim paraA = paraA from by unfold paraA; exact jsTrim_replicate (by decide) _,
      show jsTrim paraB = paraB from by unfold paraB; exact jsTrim_replicate (by decide) _,
      show jsTrim paraC = paraC from by unfold paraC; exact jsTrim_replicate (by decide) _]]
  rw [List.filter_cons, if_pos (decide_eq_true paraA_props.1),
    List.filter_cons, if_pos (decide_eq_true paraB_props.1),
    List.filter_cons, if_pos (decide_eq_true paraC_props.1), List.filter_nil]

theorem trimL_nl2_append (z : JStr) : trimL (nl2 ++ z) = trimL z := by
  rw [show (nl2 ++ z : JStr) = '\n' :: ('\n' :: z) from rfl, trimL_cons,
    if_pos (by decide), trimL_cons, if_pos (by decide)]

theorem c8chunk0_trimL : trimL c8chunk0 = c8chunk0 := by
  unfold c8chunk0
  rw [List.append_assoc, trimL_fix_append paraA_props.2.1 paraA_props.1, ← List.append_assoc]

theorem c8chunk0_trimR : trimR c8chunk0 = c8chunk0 :=
  trimR_append_nl2 paraB_props.1 paraB_props.2.2 paraA

theorem c8chunk0_jsTrim : jsTrim c8chunk0 = c8chunk0 := by
  rw [jsTrim_eq_trimL_of_trimR_fix c8chunk0_trimR, c8chunk0_trimL]

theorem c8chunk0_ne_nil : c8chunk0 ≠ [] := append_nl2_ne_nil _ _

theorem c8chunk0_length : c8chunk0.length = 1100 := by
  simp only [c8chunk0, paraA, paraB, nl2, List.length_append, List.length_replicate,
    List.length_cons, List.length_nil]

theorem c8chunk1_ne_nil : c8chunk1 ≠ [] := by
  intro h
  rcases List.append_eq_nil.1 h with ⟨h1, -⟩
  exact paraB_props.1 h1

theorem c8_step1 : chunkStep 1200 200 ([], []) paraA = ([], paraA) := by
  unfold chunkStep
  dsimp only
  rw [if_neg (by rintro ⟨-, h⟩; exact h rfl), if_neg (fun h => h rfl)]

theorem c8_step2 : chunkStep 1200 200 ([], paraA) paraB = ([], c8chunk0) := by
  have hlen : (jsTrim (paraA ++ nl2 ++ paraB)).length = 1100 := by
    rw [jsTrim_append_nl2 paraB_props.1 paraB_props.2.2
      (by rw [paraA_props.2.1]; exact paraA_props.1), paraA_props.2.1]
    simp only [paraA, paraB, nl2, List.length_append, List.length_replicate,
      List.length_cons, List.length_nil]
  unfold chunkStep
  dsimp only
  rw [if_neg (by rintro ⟨h1, -⟩; rw [hlen] at h1; omega), if_pos paraA_props.1]
  rfl

theorem c8_step3 :
    chunkStep 1200 200 ([], c8chunk0) paraC =
      ([c8chunk0], jsSliceNeg 200 c8chunk0 ++ nl2 ++ paraC) := by
  have hlen3 : (jsTrim (c8chunk0 ++ nl2 ++ paraC)).length = 1302 := by
    rw [jsTrim_append_nl2 paraC_props.1 paraC_props.2.2
      (by rw [c8chunk0_trimL]; exact c8chunk0_ne_nil), c8chunk0_trimL]
    simp only [c8chunk0, paraA, paraB, paraC, nl2, List.length_append,
      List.length_replicate, List.length_cons, List.length_nil]
  unfold chunkStep
  dsimp only
  rw [if_pos ⟨by rw [hlen3]; omega, c8chunk0_ne_nil⟩, c8chunk0_jsTrim]
  rfl

theorem c8_slice : jsSliceNeg 200 c8chunk0 = nl2 ++ paraB := by
  unfold jsSliceNeg
  rw [c8chunk0_length, show (1100 - 200 : Nat) = 900 from rfl]
  unfold c8chunk0
  rw [List.append_assoc, show (900 : Nat) = paraA.length from by
    simp only [paraA, List.length_replicate]]
  exact List.drop_left _ _

theorem c8_final_trim : jsTrim ((nl2 ++ paraB) ++ nl2 ++ paraC) = c8chunk1 := by
  rw [jsTrim_eq_trimL_of_trimR_fix
    (trimR_append_nl2 paraC_props.1 paraC_props.2.2 (nl2 ++ paraB)),
    List.append_assoc, List.append_assoc, trimL_nl2_append,
    trimL_fix_append paraB_props.2.1 paraB_props.1]
  rfl

theorem chunkManualText_c8 : chunkManualText c8text 1200 200 = [c8chunk0, c8chunk1] := by
  simp only [chunkManualText, manualParagraphs_c8]
  rw [List.foldl_cons, c8_step1, List.foldl_cons, c8_step2, List.foldl_cons, c8_step3,
    List.foldl_nil]
  dsimp only
  rw [c8_slice, c8_final_trim, if_pos c8chunk1_ne_nil, List.singleton_append,
    if_pos (List.cons_ne_nil c8chunk0 [c8chunk1])]

/-- C7: for every input text the ingestion pipeline embeds at most 40 chunks
(the cap `slice(0, 40)` at worker.ts:714), and an input producing no
paragraphs at all is emitted as the whole text in a single chunk
(worker.ts:658). -/
theorem claim_C7_chunk_cap (text : JStr) :
    (ingestionChunks text).length ≤ 40 ∧
    (manualParagraphs text = [] → ingestionChunks text = [text]) := by
  constructor
  · rw [ingestionChunks, List.length_take]
    exact Nat.min_le_left _ _
  · intro h
    simp only [ingestionChunks, chunkManualText, h, List.foldl_nil]
    rfl

/-- C7 witness: a whitespace-only input has no paragraphs and is emitted as
one whole-text chunk; the cap holds trivially. -/
theorem claim_C7_chunk_cap_witness :
    (ingestionChunks [' ']).length ≤ 40 ∧ ingestionChunks [' '] = [[' ']] :=
  ⟨(claim_C7_chunk_cap [' ']).1, (claim_C7_chunk_cap [' ']).2 (by decide)⟩

/-- C8 (amended): for every chunk after the first, when the previous chunk is
at least 200 units long, the chunk starts with the previous chunk's 200-unit
suffix stripped of its leading whitespace (the `trim()` applied to each
emitted chunk at worker.ts:646,655 removes whitespace that the raw
`slice(-200)` overlap seed may start with; the literal prefix/suffix equality
of the original claim fails, see the counterexample). -/
theorem claim_C8_overlap_amended (text : JStr) :
    List.Chain' (overlapRel 200) (chunkManualText text 1200 200) :=
  chunkManualText_chain text 1200 200 (by omega)

/-- C8 counterexample to the claim as stated: on `c8text` the chunker emits
exactly two chunks; the first is 1100 units long, yet the second chunk's
200-unit prefix differs from the first chunk's 200-unit suffix (the suffix
starts with the blank-line separator, which `trim()` removed from the start
of the second chunk). -/
theorem claim_C8_counterexample :
    chunkManualText c8text 1200 200 = [c8chunk0, c8chunk1] ∧
    200 ≤ c8chunk0.length ∧
    c8chunk1.take 200 ≠ jsSliceNeg 200 c8chunk0 := by
  refine ⟨chunkManualText_c8, by rw [c8chunk0_length]; omega, ?_⟩
  have htake : c8chunk1.take 200 = paraB ++ nl2 := by
    unfold c8chunk1
    rw [show (200 : Nat) = paraB.length + 2 from by
        simp only [paraB, List.length_replicate],
      List.take_append, show (2 : Nat) = nl2.length from rfl, List.take_left]
  rw [htake, c8_slice]
  intro h
  have hb : (paraB ++ nl2).head? = some 'b' := by
    unfold paraB
    rw [show (198 : Nat) = 197 + 1 from rfl, List.replicate_succ, List.cons_append,
      List.head?_cons]
  have hn : (nl2 ++ paraB).head? = some '\n' := rfl
  rw [h, hn] at hb
  exact absurd (Option.some.inj hb) (by decide)

/-- C2 counterexample to the claim as stated: with a 1000-unit local result
and a 900-unit OCR result the resolver returns the local text — the
early accept of a local result longer than 200 units (ai.ts:275-277) fires
before the quarter comparison ever runs — while the claim's second scenario
requires the OCR result. -/
theorem claim_C2_counterexample :
    resolvePdfText (some c2local) c2ocr = c2local ∧ c2local ≠ c2ocr := by
  constructor
  · unfold resolvePdfText
    rw [if_pos ⟨by unfold c2local; exact replicate_ne_nil (by omega), by
      simp only [Option.getD_some, c2local, List.length_replicate]; omega⟩]
    rfl
  · intro h
    have := congrArg List.length h
    simp only [c2local, c2ocr, List.length_replicate] at this
    omega

/-- C2 (amended): a non-empty local result longer than 200 units is returned
immediately without consulting OCR; only when the local result is at most
200 units long (and both results are non-empty) does the quarter rule apply:
the local result is returned exactly when the OCR result's length is less
than one quarter of the local result's length, and otherwise the OCR result
is returned. -/
theorem claim_C2_amended (l a : JStr) (hl : l ≠ []) (ha : a ≠ []) :
    (200 < l.length → resolvePdfText (some l) a = l) ∧
    (l.length ≤ 200 →
      resolvePdfText (some l) a = if 4 * a.length < l.length then l else a) := by
  unfold resolvePdfText
  constructor
  · intro h200
    rw [if_pos ⟨by simpa using hl, by simpa using h200⟩]
    rfl
  · intro h200
    rw [if_neg (by rintro ⟨-, hgt⟩; simp only [Option.getD_some] at hgt; omega)]
    rw [if_pos ⟨ha, List.length_pos.2 ha⟩]
    by_cases hq : 4 * a.length < l.length
    · rw [if_pos ⟨by simpa using hl, by simpa using hq⟩, if_pos hq]
      rfl
    · rw [if_neg (by rintro ⟨-, h⟩; simp only [Option.getD_some] at h; exact hq h),
        if_neg hq]

/-- C2 witness: a 1-unit local result with a 2-unit OCR result falls to the
quarter rule and yields the OCR result. -/
theorem claim_C2_amended_witness :
    resolvePdfText (some ['x']) ['y', 'z'] = ['y', 'z'] := by
  have h := (claim_C2_amended ['x'] ['y', 'z'] (by decide) (by decide)).2 (by decide)
  rw [h, if_neg (by decide)]

/-- C4: for a stored `vectorChunkCount` equal to a positive integer `n` the
delete endpoint enumerates exactly the ids `appliance:{id}:chunk:0` through
`appliance:{id}:chunk:n-1`; for an absent or non-positive count it issues the
single legacy-shaped id; the manual and extracted-text object-storage keys
are both deleted when present (worker.ts:1456-1479). -/
theorem claim_C4_delete_ids (id : String) (a : KitchenApplianceRow) :
    (∀ n : Int, deleteChunkCount a = n → 0 < n →
      (deleteVectorIds id a).length = n.toNat ∧
      (∀ i : Nat, i < n.toNat →
        (deleteVectorIds id a)[i]? = some (chunkVectorId id i))) ∧
    (deleteChunkCount a ≤ 0 → deleteVectorIds id a = [legacyVectorId id]) ∧
    (∀ mk ok, a.manualR2Key = some mk → a.ocrTextR2Key = some ok →
      deleteObjectKeys a = [mk, ok]) := by
  refine ⟨?_, ?_, ?_⟩
  · intro n hn hpos
    unfold deleteVectorIds
    rw [hn, if_pos hpos]
    constructor
    · simp
    · intro i hi
      rw [List.getElem?_map, List.getElem?_range hi]
      rfl
  · intro h
    unfold deleteVectorIds
    rw [if_neg (by omega)]
  · intro mk ok h1 h2
    unfold deleteObjectKeys
    rw [h1, h2]
    rfl

/-- C4 witness: a row with `vectorChunkCount = 3` yields three enumerated
chunk ids and both object-storage keys. -/
theorem claim_C4_delete_ids_witness :
    (deleteVectorIds "A1" c4row).length = 3 ∧
    (deleteVectorIds "A1" c4row)[2]? = some "appliance:A1:chunk:2" ∧
    deleteObjectKeys c4row =
      ["appliances/admin/A1/manual.pdf", "appliances/admin/A1/extracted_text.txt"] := by
  have h := claim_C4_delete_ids "A1" c4row
  refine ⟨(h.1 3 rfl (by omega)).1, ?_, h.2.2 _ _ rfl rfl⟩
  rw [(h.1 3 rfl (by omega)).2 2 (by omega)]
  rfl

/-- C3: for every oracle behaviour and every job, the status write sequence
(creation `QUEUED` included) is a subsequence of
`QUEUED, PROCESSING, COMPLETED` or of `QUEUED, PROCESSING, FAILED` — it
never moves backward or revisits `QUEUED` — and a `COMPLETED` write occurs
only when the whole `try` body (text extraction, spec extraction, chunking,
embedding, vector upsert and the final update) ran without throwing. -/
theorem claim_C3_status_monotone (o : PipelineOracle) (job : IngestJob) :
    ((jobStatusTrace o job).Sublist
        [ProcessingStatus.queued, ProcessingStatus.processing, ProcessingStatus.completed] ∨
      (jobStatusTrace o job).Sublist
        [ProcessingStatus.queued, ProcessingStatus.processing, ProcessingStatus.failed]) ∧
    (∀ d, DbWrite.completed d ∈ (runApplianceIngestion o job).1 →
      (ingestAttempt o job).1 = .ok d) := by
  unfold jobStatusTrace runApplianceIngestion
  cases hsp : o.statusProcessing with
  | error e =>
    dsimp only
    exact ⟨Or.inl (by decide), fun d hd => by simp at hd⟩
  | ok u =>
    cases hatt : ingestAttempt o job with
    | mk res ups =>
      cases res with
      | ok d =>
        dsimp only
        refine ⟨Or.inl (by simp only [List.map, writeStatus]; decide), ?_⟩
        intro d' hd'
        simp only [List.mem_cons, List.not_mem_nil, or_false] at hd'
        rcases hd' with hd' | hd'
        · exact absurd hd' (by simp)
        · rw [DbWrite.completed.injEq] at hd'
          rw [hd']
      | error e =>
        cases hsf : o.statusFailed with
        | ok u2 =>
          dsimp only
          exact ⟨Or.inr (by simp only [List.map, writeStatus]; decide),
            fun d hd => by simp at hd⟩
        | error e2 =>
          dsimp only
          exact ⟨Or.inr (by simp only [List.map, writeStatus]; decide),
            fun d hd => by simp at hd⟩

/-- C3 witness: the all-success oracle on a text job runs
`QUEUED, PROCESSING, COMPLETED` and its completion record comes from the
successful attempt. -/
theorem claim_C3_status_monotone_witness :
    (ingestAttempt oracleOk jobText).1 = .ok dText := by
  have hrun : (runApplianceIngestion oracleOk jobText).1 =
      [DbWrite.processing, DbWrite.completed dText] := rfl
  exact (claim_C3_status_monotone oracleOk jobText).2 dText
    (by rw [hrun]; exact List.mem_cons_of_mem _ (List.mem_cons_self _ _))

theorem enumFrom_fst_ge : ∀ (l : List JStr) (i : Nat), ∀ p ∈ l.enumFrom i, i ≤ p.1 := by
  intro l
  induction l with
  | nil => intro i p hp; simp [List.enumFrom] at hp
  | cons c rest ih =>
    intro i p hp
    rw [show List.enumFrom i (c :: rest) = (i, c) :: List.enumFrom (i + 1) rest from rfl,
      List.mem_cons] at hp
    rcases hp with hp | hp
    · rw [hp]
    · exact Nat.le_trans (Nat.le_succ i) (ih (i + 1) p hp)

theorem buildVectorsAux_spec (aid : String) (embedAi : Nat → Except Unit (List Int)) :
    ∀ (chunks : List JStr) (i : Nat) (vs : List VectorEntry),
      buildVectorsAux aid embedAi i chunks = .ok vs →
      (∀ e ∈ vs, e.values ≠ [] ∧ i ≤ e.chunkIndex) ∧
      vs.length = ((chunks.enumFrom i).filter (embeddedNonEmpty embedAi)).length ∧
      (∀ p ∈ chunks.enumFrom i, embedText (embedAi p.1) p.2 = .ok [] →
        ∀ e ∈ vs, e.chunkIndex ≠ p.1) := by
  intro chunks
  induction chunks with
  | nil =>
    intro i vs h
    rw [show buildVectorsAux aid embedAi i [] = .ok [] from rfl] at h
    cases h
    exact ⟨by simp, by simp [List.enumFrom], by simp [List.enumFrom]⟩
  | cons c rest ih =>
    intro i vs h
    unfold buildVectorsAux at h
    cases hemb : embedText (embedAi i) c with
    | error e => rw [hemb] at h; cases h
    | ok emb =>
      rw [hemb] at h
      cases htail : buildVectorsAux aid embedAi (i + 1) rest with
      | error e => rw [htail] at h; cases h
      | ok tail =>
        rw [htail] at h
        dsimp only at h
        obtain ⟨ha, hb, hc⟩ := ih (i + 1) tail htail
        have henum : List.enumFrom i (c :: rest) = (i, c) :: List.enumFrom (i + 1) rest := rfl
        by_cases hz : emb = []
        · rw [if_pos hz] at h
          cases h
          subst hz
          refine ⟨fun e he => ⟨(ha e he).1, Nat.le_trans (Nat.le_succ i) (ha e he).2⟩, ?_, ?_⟩
          · rw [henum, List.filter_cons,
              if_neg (by simp [embeddedNonEmpty, hemb])]
            exact hb
          · intro p hp hpz e he
            rw [henum, List.mem_cons] at hp
            rcases hp with hp | hp
            · rw [hp]
              have := (ha e he).2
              omega
            · exact hc p hp hpz e he
        · rw [if_neg hz] at h
          cases h
          refine ⟨?_, ?_, ?_⟩
          · intro e he
            rw [List.mem_cons] at he
            rcases he with he | he
            · rw [he]
              exact ⟨hz, Nat.le_refl i⟩
            · exact ⟨(ha e he).1, Nat.le_trans (Nat.le_succ i) (ha e he).2⟩
          · rw [henum, List.filter_cons,
              if_pos (by
                simp only [embeddedNonEmpty, hemb]
                cases emb with
                | nil => exact absurd rfl hz
                | cons x xs => rfl)]
            simp only [List.length_cons, hb]
          · intro p hp hpz e he
            rw [henum, List.mem_cons] at hp
            rcases hp with hp | hp
            · rw [hp] at hpz
              rw [hemb] at hpz
              cases hpz
              exact absurd rfl hz
            · rw [List.mem_cons] at he
              rcases he with he | he
              · rw [he]
                have := enumFrom_fst_ge rest (i + 1) p hp
                simp only
                omega
              · exact hc p hp hpz e he

/-- Inversion of a successful `try` body: every stage succeeded, and the data
persisted by the final update is determined by the stage results. -/
theorem ingestAttempt_ok_inv (o : PipelineOracle) (job : IngestJob) (d : SuccessData)
    (h : (ingestAttempt o job).1 = .ok d) :
    ∃ mb mt ag vectors,
      resolveManualBytes o job = .ok mb ∧
      resolveManualText o job mb = .ok mt ∧
      extractApplianceSpecs o.spec mt = .ok d.specs ∧
      generateApplianceInstructions o.instrAi = .ok ag ∧
      buildVectorsAux job.applianceId o.embedAi 0 (ingestionChunks mt) = .ok vectors ∧
      (ingestAttempt o job).2 = vectors ∧
      d.storedSpecs = { base := d.specs, vectorChunkCount := vectors.length } ∧
      d.agentInstructions = (if ag = [] then none else some ag) := by
  unfold ingestAttempt at h
  cases h1 : resolveManualBytes o job with
  | error e => rw [h1] at h; cases h
  | ok mb =>
    rw [h1] at h
    dsimp only at h
    cases h2 : (match mb with | some _ => o.putManual | none => Except.ok ()) with
    | error e => rw [h2] at h; cases h
    | ok u =>
      rw [h2] at h
      dsimp only at h
      cases h3 : resolveManualText o job mb with
      | error e => rw [h3] at h; cases h
      | ok mt =>
        rw [h3] at h
        dsimp only at h
        cases h4 : o.putText with
        | error e => rw [h4] at h; cases h
        | ok u2 =>
          rw [h4] at h
          dsimp only at h
          cases h5 : extractApplianceSpecs o.spec mt with
          | error e => rw [h5] at h; cases h
          | ok specs =>
            rw [h5] at h
            dsimp only at h
            cases h6 : o.getPrefs with
            | error e => rw [h6] at h; cases h
            | ok u3 =>
              rw [h6] at h
              dsimp only at h
              cases h7 : generateApplianceInstructions o.instrAi with
              | error e => rw [h7] at h; cases h
              | ok ag =>
                rw [h7] at h
                dsimp only at h
                cases h8 : buildVectorsAux job.applianceId o.embedAi 0
                    (ingestionChunks mt) with
                | error e => rw [h8] at h; cases h
                | ok vectors =>
                  rw [h8] at h
                  dsimp only at h
                  cases h9 : (match vectors with
                      | [] => Except.ok ()
                      | _ => o.upsert) with
                  | error e => rw [h9] at h; cases h
                  | ok u4 =>
                    rw [h9] at h
                    dsimp only at h
                    cases h10 : o.finalUpdate with
                    | error e => rw [h10] at h; cases h
                    | ok u5 =>
                      rw [h10] at h
                      dsimp only at h
                      rw [Except.ok.injEq] at h
                      have hsnd : (ingestAttempt o job).2 = vectors := by
                        unfold ingestAttempt
                        rw [h1]; dsimp only
                        rw [h2]; dsimp only
                        rw [h3]; dsimp only
                        rw [h4]; dsimp only
                        rw [h5]; dsimp only
                        rw [h6]; dsimp only
                        rw [h7]; dsimp only
                        rw [h8]; dsimp only
                        rw [h9]; dsimp only
                        rw [h10]
                      subst h
                      exact ⟨mb, mt, ag, vectors, rfl, h3, h5, rfl, h8, hsnd, rfl, rfl⟩

/-- C1: after a successful run (one that persists `COMPLETED`), the stored
`extractedSpecs.vectorChunkCount` equals the number of vector entries
actually upserted in that run; every upserted entry carries a non-empty
vector; the count equals the number of chunks whose embedding came back
non-empty; and a chunk whose embedding call returned the empty vector
contributes no entry (no upserted entry carries its index). -/
theorem claim_C1_vector_count (o : PipelineOracle) (job : IngestJob) (d : SuccessData)
    (h : (ingestAttempt o job).1 = .ok d) :
    d.storedSpecs.vectorChunkCount = (ingestAttempt o job).2.length ∧
    (∀ e ∈ (ingestAttempt o job).2, e.values ≠ []) ∧
    (ingestAttempt o job).2.length =
      (((ingestChunksOf o job).enumFrom 0).filter (embeddedNonEmpty o.embedAi)).length ∧
    (∀ p ∈ (ingestChunksOf o job).enumFrom 0,
      embedText (o.embedAi p.1) p.2 = .ok [] →
      ∀ e ∈ (ingestAttempt o job).2, e.chunkIndex ≠ p.1) := by
  obtain ⟨mb, mt, ag, vectors, h1, h3, h5, h7, h8, hsnd, hstored, hag⟩ :=
    ingestAttempt_ok_inv o job d h
  have hchunks : ingestChunksOf o job = ingestionChunks mt := by
    unfold ingestChunksOf ingestManualText
    rw [h1]
    dsimp only
    rw [h3]
  obtain ⟨ha, hb, hc⟩ := buildVectorsAux_spec job.applianceId o.embedAi
    (ingestionChunks mt) 0 vectors h8
  rw [hsnd, hchunks, hstored]
  exact ⟨rfl, fun e he => (ha e he).1, hb, hc⟩

/-- C1 witness: on a job whose every embedding call returns the empty vector,
the run completes with `vectorChunkCount = 0` and upserts nothing. -/
theorem claim_C1_vector_count_witness :
    dEmpty.storedSpecs.vectorChunkCount = (ingestAttempt oracleEmb0 jobText).2.length ∧
    (∀ e ∈ (ingestAttempt oracleEmb0 jobText).2, e.values ≠ []) := by
  have h := claim_C1_vector_count oracleEmb0 jobText dEmpty rfl
  exact ⟨h.1, h.2.1⟩

/-- C5 counterexample to the claim as stated: a create request whose
`manual_url` has an `ftp` scheme is ACCEPTED (HTTP 202, appliance created in
`QUEUED`, job dispatched) — no synchronous 4xx is returned — and the
dispatched job then writes `PROCESSING` followed by `FAILED` when the scheme
check inside `runApplianceIngestion` (worker.ts:667-670) throws. -/
theorem claim_C5_counterexample :
    createApplianceEndpoint reqFtp "A1" = CreateResult.accepted "A1" jobFtp ∧
    (runApplianceIngestion oracleOk jobFtp).1 = [DbWrite.processing, DbWrite.failed] :=
  ⟨rfl, rfl⟩

/-- C5 (amended): a manual URL whose scheme is not http/https is rejected
asynchronously, inside the ingestion job and before any fetch is attempted
(the conclusion holds for every fetch-oracle behaviour): the job writes
`PROCESSING` then `FAILED` and upserts nothing, while the create endpoint
itself has already returned 202 with the appliance in `QUEUED`. -/
theorem claim_C5_invalid_scheme_async (o : PipelineOracle) (job : IngestJob)
    (u p : String) (hbytes : job.pdfBytes = none) (hurl : job.manualUrl = some u)
    (hproto : urlProtocol u = some p) (hp1 : p ≠ "http:") (hp2 : p ≠ "https:")
    (hsp : o.statusProcessing = .ok ()) (hsf : o.statusFailed = .ok ()) :
    (runApplianceIngestion o job).1 = [DbWrite.processing, DbWrite.failed] ∧
    (ingestAttempt o job).2 = [] := by
  have hres : resolveManualBytes o job = .error () := by
    unfold resolveManualBytes
    rw [hbytes, hurl]
    dsimp only
    rw [hproto]
    dsimp only
    rw [if_neg (by rintro (h | h) <;> contradiction)]
  have hatt : ingestAttempt o job = (.error (), []) := by
    unfold ingestAttempt
    rw [hres]
  constructor
  · unfold runApplianceIngestion
    rw [hsp, hatt]
    dsimp only
    rw [hsf]
  · rw [hatt]

/-- C5 witness: the concrete `ftp` job under the all-success oracle. -/
theorem claim_C5_invalid_scheme_async_witness :
    (runApplianceIngestion oracleOk jobFtp).1 = [DbWrite.processing, DbWrite.failed] ∧
    (ingestAttempt oracleOk jobFtp).2 = [] :=
  claim_C5_invalid_scheme_async oracleOk jobFtp "ftp://host/manual.pdf" "ftp:"
    rfl rfl rfl (by decide) (by decide) rfl rfl

theorem buildVectorsAux_ne_error (aid : String) (embedAi : Nat → Except Unit (List Int))
    (hemb : ∀ i, embedAi i ≠ .error ()) :
    ∀ (chunks : List JStr) (i : Nat), ∃ vs, buildVectorsAux aid embedAi i chunks = .ok vs := by
  intro chunks
  induction chunks with
  | nil => intro i; exact ⟨[], rfl⟩
  | cons c rest ih =>
    intro i
    obtain ⟨tail, htail⟩ := ih (i + 1)
    have hex : ∃ emb, embedText (embedAi i) c = .ok emb := by
      unfold embedText
      by_cases hz : jsTrim c = []
      · rw [if_pos hz]; exact ⟨[], rfl⟩
      · rw [if_neg hz]
        cases he : embedAi i with
        | error e => cases e; exact absurd he (hemb i)
        | ok v => exact ⟨v, rfl⟩
    obtain ⟨emb, hembx⟩ := hex
    refine ⟨if emb = [] then tail
      else { id := chunkVectorId aid i, values := emb, chunkIndex := i,
             chunkText := truncate c 800 } :: tail, ?_⟩
    unfold buildVectorsAux
    rw [hembx]
    dsimp only
    rw [htail]

/-- C6 counterexample to the claim as stated: when the spec-extraction model
call itself rejects (rather than returning unparsable text), the failure is
NOT swallowed — only `JSON.parse` sits inside the `try` of
`extractApplianceSpecs` (ai.ts:327-346) — and the job transitions to
`FAILED` instead of substituting a null spec and completing. -/
theorem claim_C6_counterexample :
    (runApplianceIngestion oracleC6Bad jobText).1 =
      [DbWrite.processing, DbWrite.failed] := rfl

/-- C6 (amended): parse failures are best-effort — when the spec model call
succeeds but its output fails to parse as JSON, and the instruction model
call succeeds, the pipeline persists a null spec (and, for an unrecognized
instruction response shape, a null `agentInstructions`) and still completes,
provided the remaining stages succeed.  A rejected model call, by contrast,
fails the job (see the counterexample). -/
theorem claim_C6_best_effort (o : PipelineOracle) (job : IngestJob) (t raw : JStr)
    (m : Option JStr)
    (hbytes : job.pdfBytes = none) (hurl : job.manualUrl = none)
    (htext : job.extractedText = some t) (ht : t ≠ [])
    (hai : o.spec.aiRun = .ok (some raw))
    (hparse : o.spec.parseJson (stripCodeFence raw) = none)
    (hinstr : o.instrAi = .ok m)
    (hsp : o.statusProcessing = .ok ()) (hpt : o.putText = .ok ())
    (hgp : o.getPrefs = .ok ()) (hup : o.upsert = .ok ()) (hfu : o.finalUpdate = .ok ())
    (hemb : ∀ i, o.embedAi i ≠ .error ()) :
    ∃ d, (runApplianceIngestion o job).1 = [DbWrite.processing, DbWrite.completed d] ∧
      d.specs = none ∧ d.storedSpecs.base = none ∧
      (m = none → d.agentInstructions = none) := by
  have h1 : resolveManualBytes o job = .ok none := by
    unfold resolveManualBytes
    rw [hbytes, hurl]
  have h3 : resolveManualText o job none = .ok (jsTrim t) := by
    unfold resolveManualText
    rw [htext]
    rw [if_pos (by simpa using ht)]
    rfl
  have h5 : extractApplianceSpecs o.spec (jsTrim t) = .ok none := by
    unfold extractApplianceSpecs
    by_cases hz : jsTrim (jsTrim t) = []
    · rw [if_pos hz]
    · rw [if_neg hz, hai]
      dsimp only [Option.getD_some]
      rw [hparse]
  have h7 : generateApplianceInstructions o.instrAi = .ok (jsTrim (m.getD [])) := by
    unfold generateApplianceInstructions
    rw [hinstr]
  obtain ⟨vectors, h8⟩ :=
    buildVectorsAux_ne_error job.applianceId o.embedAi hemb (ingestionChunks (jsTrim t)) 0
  have h9 : (match vectors with | [] => Except.ok () | _ => o.upsert) = .ok () := by
    cases vectors with
    | nil => rfl
    | cons v vs => exact hup
  have hatt : ingestAttempt o job =
      (.ok { specs := none
             storedSpecs := { base := none, vectorChunkCount := vectors.length }
             agentInstructions :=
               if jsTrim (m.getD []) = [] then none else some (jsTrim (m.getD []))
             brandUpdate := none
             modelUpdate := none }, vectors) := by
    unfold ingestAttempt
    rw [h1]; dsimp only
    rw [h3]; dsimp only
    rw [hpt]; dsimp only
    rw [h5]; dsimp only
    rw [hgp]; dsimp only
    rw [h7]; dsimp only
    rw [h8]; dsimp only
    rw [h9]; dsimp only
    rw [hfu]
  refine ⟨{ specs := none
            storedSpecs := { base := none, vectorChunkCount := vectors.length }
            agentInstructions :=
              if jsTrim (m.getD []) = [] then none else some (jsTrim (m.getD []))
            brandUpdate := none
            modelUpdate := none }, ?_, rfl, rfl, ?_⟩
  · unfold runApplianceIngestion
    rw [hsp, hatt]
  · intro hm
    subst hm
    dsimp only
    rfl

/-- C6 witness: the all-success oracle (unparsable spec output, unrecognized
instruction shape) on the text job completes with null spec and null
instructions. -/
theorem claim_C6_best_effort_witness :
    ∃ d, (runApplianceIngestion oracleOk jobText).1 =
        [DbWrite.processing, DbWrite.completed d] ∧
      d.specs = none ∧ d.storedSpecs.base = none ∧
      ((none : Option JStr) = none → d.agentInstructions = none) :=
  claim_C6_best_effort oracleOk jobText ['t'] "x".toList none rfl rfl rfl (by decide)
    rfl rfl rfl rfl rfl rfl rfl rfl (fun _ h => Except.noConfusion h)

/-- When every caller-input check passes, the adapt endpoint responds with the
adaptation result verbatim as a success payload. -/
theorem adaptEndpoint_success (userId recipeId : String) (deps : AdaptDeps)
    (recipe : Recipe) (a : ApplianceRec) (bodyA : Option String)
    (hid : recipeId ≠ "") (hbody : deps.parseBody = some bodyA)
    (haid : trimS (bodyA.getD "") ≠ "") (hrecipe : deps.recipe = some recipe)
    (happ : deps.appliance = some a) (howner : a.userId = userId)
    (hstatus : a.processingStatus = .completed) :
    adaptRecipeEndpoint (some userId) recipeId deps =
      .success
        (generateApplianceAdaptation deps.parseJson deps.adaptRaw
          (recipe.steps.map (·.instruction))).tailoredSteps
        (generateApplianceAdaptation deps.parseJson deps.adaptRaw
          (recipe.steps.map (·.instruction))).summaryOfChanges := by
  unfold adaptRecipeEndpoint
  dsimp only
  rw [if_neg hid, hbody]
  dsimp only
  rw [if_neg haid, hrecipe]
  dsimp only
  rw [happ]
  dsimp only
  rw [if_neg (fun h => h howner), if_neg (fun h => h hstatus)]

/-- C9: when every caller-input check passes (recipe found, appliance found,
owner matches, status `COMPLETED`) and the generation model's adaptation
output fails to parse as JSON, the endpoint responds with success carrying
the original recipe steps unchanged and the fixed, non-empty degraded-mode
summary — never an error status (ai.ts:510-521, worker.ts:2214-2224). -/
theorem claim_C9_degraded_adaptation (userId recipeId : String) (deps : AdaptDeps)
    (recipe : Recipe) (a : ApplianceRec) (bodyA : Option String)
    (hid : recipeId ≠ "") (hbody : deps.parseBody = some bodyA)
    (haid : trimS (bodyA.getD "") ≠ "") (hrecipe : deps.recipe = some recipe)
    (happ : deps.appliance = some a) (howner : a.userId = userId)
    (hstatus : a.processingStatus = .completed)
    (hparse : deps.parseJson
      (stripCodeFence (deps.adaptRaw.getD "\x7b\x7d".toList)) = none) :
    adaptRecipeEndpoint (some userId) recipeId deps =
      .success (recipe.steps.map (·.instruction)) adaptFallbackSummary ∧
    adaptFallbackSummary ≠ "" := by
  constructor
  · rw [adaptEndpoint_success userId recipeId deps recipe a bodyA hid hbody haid
      hrecipe happ howner hstatus]
    unfold generateApplianceAdaptation
    rw [hparse]
  · decide

/-- C9 witness: the concrete degraded-mode scenario. -/
theorem claim_C9_degraded_adaptation_witness :
    adaptRecipeEndpoint (some "admin") "R1" adaptDeps9 =
      .success ["bake"] adaptFallbackSummary ∧
    adaptFallbackSummary ≠ "" :=
  claim_C9_degraded_adaptation "admin" "R1" adaptDeps9
    { title := "Cake", steps := [{ instruction := "bake" }] }
    { userId := "admin", processingStatus := .completed,
      agentInstructions := none, ocrTextR2Key := none }
    (some "APP1") (by decide) rfl (by decide) rfl rfl rfl rfl rfl

theorem adaptStepsFromJson_eq_nil (parsed : JVal)
    (h1 : ∀ xs, getField parsed "tailored_steps" ≠ some (.jarr xs))
    (h2 : ∀ xs, getField parsed "tailoredSteps" ≠ some (.jarr xs)) :
    adaptStepsFromJson parsed = [] := by
  have hsecond : (match getField parsed "tailoredSteps" with
      | some (.jarr xs) => jsToStringList xs
      | _ => []) = ([] : List String) := by
    cases hg2 : getField parsed "tailoredSteps" with
    | none => rfl
    | some v =>
      cases v with
      | jarr xs => exact absurd hg2 (h2 xs)
      | jnull => rfl
      | jbool b => rfl
      | jnum n => rfl
      | jstr s2 => rfl
      | jobj fs => rfl
  unfold adaptStepsFromJson
  cases hg1 : getField parsed "tailored_steps" with
  | none => exact hsecond
  | some v =>
    cases v with
    | jarr xs => exact absurd hg1 (h1 xs)
    | jnull => exact hsecond
    | jbool b => exact hsecond
    | jnum n => exact hsecond
    | jstr s2 => exact hsecond
    | jobj fs => exact hsecond

/-- C10 counterexample to the claim as stated: a model response that parses to
an object holding only `summary_of_changes` (no tailored-steps array) yields
an empty tailored-step list but a NON-empty change summary — the claim's
"empty change summary" fails. -/
theorem claim_C10_counterexample :
    (generateApplianceAdaptation parse10 (some c10raw) steps10).tailoredSteps = [] ∧
    (generateApplianceAdaptation parse10 (some c10raw) steps10).summaryOfChanges =
      "left as-is" ∧
    (generateApplianceAdaptation parse10 (some c10raw) steps10).summaryOfChanges ≠ "" ∧
    steps10 ≠ [] := by
  refine ⟨?_, ?_, ?_, by decide⟩ <;> decide

/-- C10 (amended): when the adaptation response parses as JSON but carries
neither a `tailored_steps` nor a `tailoredSteps` array,
`generateApplianceAdaptation` returns an empty tailored-step list — not the
original recipe steps — together with the summary read from
`summary_of_changes`/`summaryOfChanges` (the empty string only when those
are absent too); the endpoint then responds with success carrying zero
steps. -/
theorem claim_C10_no_steps_array (parse : JStr → Option JVal) (raw : Option JStr)
    (steps : List String) (parsed : JVal)
    (hparse : parse (stripCodeFence (raw.getD "\x7b\x7d".toList)) = some parsed)
    (hnoarr1 : ∀ xs, getField parsed "tailored_steps" ≠ some (.jarr xs))
    (hnoarr2 : ∀ xs, getField parsed "tailoredSteps" ≠ some (.jarr xs)) :
    (generateApplianceAdaptation parse raw steps).tailoredSteps = [] ∧
    (generateApplianceAdaptation parse raw steps).summaryOfChanges =
      adaptSummaryFromJson parsed ∧
    (∀ userId recipeId deps recipe a bodyA,
      deps.parseJson = parse → deps.adaptRaw = raw →
      recipe.steps.map RecipeStep.instruction = steps →
      recipeId ≠ "" → deps.parseBody = some bodyA →
      trimS (bodyA.getD "") ≠ "" → deps.recipe = some recipe →
      deps.appliance = some a → a.userId = userId →
      a.processingStatus = .completed →
      adaptRecipeEndpoint (some userId) recipeId deps =
        .success [] (adaptSummaryFromJson parsed)) := by
  have hfun : generateApplianceAdaptation parse raw steps =
      { tailoredSteps := [], summaryOfChanges := adaptSummaryFromJson parsed } := by
    unfold generateApplianceAdaptation
    rw [hparse]
    dsimp only
    rw [adaptStepsFromJson_eq_nil parsed hnoarr1 hnoarr2]
  refine ⟨by rw [hfun], by rw [hfun], ?_⟩
  intro userId recipeId deps recipe a bodyA hpj har hsteps hid hbody haid hrecipe happ
    howner hstatus
  rw [adaptEndpoint_success userId recipeId deps recipe a bodyA hid hbody haid
    hrecipe happ howner hstatus]
  rw [hpj, har, hsteps, hfun]

/-- C10 witness: the summary-only response through the endpoint yields success
with zero steps and the parsed summary. -/
theorem claim_C10_no_steps_array_witness :
    (generateApplianceAdaptation parse10 (some c10raw) steps10).tailoredSteps = [] ∧
    adaptRecipeEndpoint (some "admin") "R1" adaptDeps10 =
      .success []
        (adaptSummaryFromJson (.jobj [("summary_of_changes", .jstr "left as-is")])) := by
  have h := claim_C10_no_steps_array parse10 (some c10raw) steps10
    (.jobj [("summary_of_changes", .jstr "left as-is")]) rfl
    (fun _ h => Option.noConfusion h) (fun _ h => Option.noConfusion h)
  exact ⟨h.1, h.2.2 "admin" "R1" adaptDeps10
    { title := "Cake", steps := [{ instruction := "preheat" }, { instruction := "bake" }] }
    { userId := "admin", processingStatus := .completed,
      agentInstructions := none, ocrTextR2Key := none }
    (some "APP1") rfl rfl rfl (by decide) rfl (by decide) rfl rfl rfl rfl⟩

end ColbyRecipe
